import Mathlib

/-!
Verification of the vote-aggregation and feed-ranking core of the
tune-in club application.

The development shallowly embeds two layers of the repository:

* the database layer (`supabase/migrations/...sql`): tables `posts` and
  `post_votes`, the row-level-security policies `Members can create posts`,
  `Members can vote` and `Users can remove own vote`, the helper functions
  `is_club_member` and `has_voted_on_post`, and the score-maintenance
  trigger `update_post_score`;

* the client layer (`src/components/ProtectedRoute.tsx`): the `handleVote`
  handler and the `filteredPosts` memo (search filter, `new` sort and the
  windowed `top-*` sorts).

Machine integers of the source are modelled as `Int` (timestamps in
milliseconds, scores, vote values); identifiers as `Nat`; JavaScript
strings as `List Char`.
-/

namespace TuneIn

/-! ## Client-side data model (ProtectedRoute.tsx types) -/

/-- The `Post` row as seen by the client: `created_at` is the millisecond
timestamp `new Date(p.created_at).getTime()`. -/
structure Post where
  id : Nat
  club_id : Nat
  user_id : Nat
  title : List Char
  content : Option (List Char)
  score : Int
  created_at : Int
deriving DecidableEq

/-- The client `Vote` type: `{ post_id, vote_value }`, holding only the
votes of the acting user (loaded with `.eq("user_id", user.id)`). -/
structure ClientVote where
  post_id : Nat
  vote_value : Int
deriving DecidableEq

/-! ## Stable sort

The JavaScript `Array.prototype.sort` is a stable sort; the code calls it
with the comparators `(a, b) => b.created_at - a.created_at` and
`(a, b) => b.score - a.score`.  We embed it as a stable insertion sort
parameterised by the strict relation `before a b` ("the comparator puts
`a` strictly before `b`", i.e. `cmp(a, b) < 0`). -/

/-- Insert `x` into `l` after every element the comparator puts strictly
before `x` (elements comparing equal to `x` come later in the input, so
`x` goes in front of them). -/
def insertSorted (before : α → α → Bool) (x : α) : List α → List α
  | [] => [x]
  | y :: ys => if before y x then y :: insertSorted before x ys else x :: y :: ys

/-- Stable sort by the strict relation `before`. -/
def stableSort (before : α → α → Bool) : List α → List α
  | [] => []
  | x :: xs => insertSorted before x (stableSort before xs)

/-! ## Feed ranking (the filteredPosts memo) -/

/-- Sort-mode select values: "new", "top-3m", "top-6m", "top-1y", "top-all". -/
inductive SortMode where
  | new
  | top3m
  | top6m
  | top1y
  | topAll
deriving DecidableEq

/-- The `windows` record of `filteredPosts`, in milliseconds; `none`
stands for the JavaScript `Infinity` (the `"top-all"` entry and the
`|| Infinity` fallback). -/
def windowMs : SortMode → Option Int
  | .top3m => some (90 * 24 * 60 * 60 * 1000)
  | .top6m => some (180 * 24 * 60 * 60 * 1000)
  | .top1y => some (365 * 24 * 60 * 60 * 1000)
  | _ => none

/-- Lowercasing, `s.toLowerCase()`, on a JavaScript string. -/
def lowerStr (s : List Char) : List Char := s.map Char.toLower

/-- The search predicate of `filteredPosts`:
`p.title.toLowerCase().includes(q) || p.content?.toLowerCase().includes(q)`
where `q` is the already-lowercased query. -/
def matchesQuery (q : List Char) (p : Post) : Bool :=
  decide (q <:+: lowerStr p.title) ||
    (match p.content with
     | some c => decide (q <:+: lowerStr c)
     | none => false)

/-- The comparator `(a, b) => b.created_at - a.created_at` puts `a`
strictly before `b` iff `a.created_at > b.created_at`. -/
def beforeByTime (a b : Post) : Bool := b.created_at < a.created_at

/-- The comparator `(a, b) => b.score - a.score` puts `a` strictly before
`b` iff `a.score > b.score`. -/
def beforeByScore (a b : Post) : Bool := b.score < a.score

/-- The `filteredPosts` memo of `ProtectedRoute.tsx`: optional search
pre-filter, then either the `new` sort (created_at descending) or the
windowed `top` filter followed by the score-descending sort.  `now` is
`Date.now()` in milliseconds. -/
def rank (posts : List Post) (mode : SortMode) (search : List Char) (now : Int) :
    List Post :=
  let result :=
    if search.isEmpty then posts
    else posts.filter (matchesQuery (lowerStr search))
  match mode with
  | .new => stableSort beforeByTime result
  | m =>
    match windowMs m with
    | none => stableSort beforeByScore result
    | some w =>
        stableSort beforeByScore
          (result.filter (fun p => decide (now - p.created_at < w)))

/-! ## Client vote handler (handleVote) -/

/-- The slice of client state `handleVote` touches: the votes of the
acting user and the loaded posts. -/
structure ClientState where
  votes : List ClientVote
  posts : List Post
deriving DecidableEq

/-- The `setPosts(prev => prev.map(p => p.id === postId ?
{...p, score: p.score + d} : p))` updates of `handleVote`. -/
def bumpScore (posts : List Post) (postId : Nat) (d : Int) : List Post :=
  posts.map (fun p => if p.id = postId then { p with score := p.score + d } else p)

/-- The handler `handleVote(postId, value)` from `ProtectedRoute.tsx`, restricted to
its client-state effects: if a vote on the post exists it is removed and
the score lowered by its value; then, only when the existing value
differs from `value`, a fresh vote is appended and the score raised by
`value`; with no existing vote, a fresh vote is appended directly. -/
def handleVote (st : ClientState) (postId : Nat) (value : Int) : ClientState :=
  match st.votes.find? (fun v => v.post_id = postId) with
  | some existing =>
      let st1 : ClientState :=
        { votes := st.votes.filter (fun v => ¬ (v.post_id = postId)),
          posts := bumpScore st.posts postId (-existing.vote_value) }
      if existing.vote_value ≠ value then
        { votes := st1.votes ++ [⟨postId, value⟩],
          posts := bumpScore st1.posts postId value }
      else st1
  | none =>
      { votes := st.votes ++ [⟨postId, value⟩],
        posts := bumpScore st.posts postId value }

/-! ## Database layer (the SQL migration) -/

/-- A row of `public.post_votes` (the `created_at` column plays no role
in the verified claims and is omitted). -/
structure Vote where
  id : Nat
  post_id : Nat
  user_id : Nat
  vote_value : Int
deriving DecidableEq

/-- A row of `public.posts` (title/content/created_at play no role in the
database-layer claims and are omitted). -/
structure DBPost where
  id : Nat
  club_id : Nat
  user_id : Nat
  score : Int
deriving DecidableEq

/-- The database state the vote/post operations read and write:
`club_memberships` as (user_id, club_id) pairs, plus the `posts` and
`post_votes` tables. -/
structure DBState where
  memberships : List (Nat × Nat)
  posts : List DBPost
  votes : List Vote
deriving DecidableEq

/-- The error taxonomy of the specification. -/
inductive DBError where
  | ValidationError
  | AuthorizationError
  | ConflictError
  | NotFoundError
deriving DecidableEq

/-- The function `public.is_club_member(_user_id, _club_id)`: membership row exists. -/
def is_club_member (u c : Nat) (s : DBState) : Bool :=
  s.memberships.any (fun m => m.1 = u && m.2 = c)

/-- The row condition `user_id = u AND post_id = p` on `post_votes`. -/
def voteMatches (u p : Nat) (v : Vote) : Bool :=
  v.user_id = u && v.post_id = p

/-- The function `public.has_voted_on_post(_user_id, _post_id)`: a vote row by the
user on the post exists. -/
def has_voted_on_post (u p : Nat) (s : DBState) : Bool :=
  s.votes.any (voteMatches u p)

/-- One firing of the trigger function `update_post_score`:
`UPDATE public.posts SET score = score + d WHERE id = pid`. -/
def update_post_score (posts : List DBPost) (pid : Nat) (d : Int) : List DBPost :=
  posts.map (fun p => if p.id = pid then { p with score := p.score + d } else p)

/-- An `INSERT` into `public.post_votes`: the `CHECK (vote_value IN (1, -1))`
constraint, the policy `Members can vote`
(`auth.uid() = user_id AND NOT has_voted_on_post(auth.uid(), post_id)`),
and on success the row insert together with the `on_vote_change` trigger
(`score = score + NEW.vote_value`), all in one transaction. -/
def insertVote (auth : Nat) (v : Vote) (s : DBState) : Except DBError DBState :=
  if ¬ (v.vote_value = 1 ∨ v.vote_value = -1) then
    .error .ValidationError
  else if ¬ (auth = v.user_id) then
    .error .AuthorizationError
  else if has_voted_on_post auth v.post_id s then
    .error .ConflictError
  else
    .ok { s with
          votes := v :: s.votes,
          posts := update_post_score s.posts v.post_id v.vote_value }

/-- A `DELETE FROM public.post_votes WHERE user_id = auth AND post_id = p`
under the policy `Users can remove own vote` (`auth.uid() = user_id`):
every matching row is removed and the `on_vote_change` trigger fires once
per removed row (`score = score - OLD.vote_value`).  Deleting when no
vote exists is a silent no-op. -/
def deleteVote (auth p : Nat) (s : DBState) : DBState :=
  let removed := s.votes.filter (voteMatches auth p)
  { s with
    votes := s.votes.filter (fun v => ! voteMatches auth p v),
    posts := removed.foldl (fun ps v => update_post_score ps v.post_id (-v.vote_value)) s.posts }

/-- An `INSERT` into `public.posts` under the policy `Members can create
posts` (`auth.uid() = user_id AND is_club_member(auth.uid(), club_id)`);
the `score` column takes its default 0. -/
def createPost (auth : Nat) (np : DBPost) (s : DBState) : Except DBError DBState :=
  if auth = np.user_id ∧ is_club_member auth np.club_id s then
    .ok { s with posts := { np with score := 0 } :: s.posts }
  else
    .error .AuthorizationError

/-- A committed vote transaction: an attempted insert (a rejected insert
leaves the state unchanged) or a delete. -/
inductive VoteOp where
  | insert (auth : Nat) (v : Vote)
  | remove (auth : Nat) (post_id : Nat)

/-- Apply one vote transaction; a failed insert commits nothing. -/
def applyOp (s : DBState) : VoteOp → DBState
  | .insert auth v => ((insertVote auth v s).toOption).getD s
  | .remove auth p => deleteVote auth p s

/-- Sum of the `vote_value`s of the votes on post `pid`. -/
def scoreSum (votes : List Vote) (pid : Nat) : Int :=
  ((votes.filter (fun v => v.post_id = pid)).map Vote.vote_value).sum

/-- The score invariant: every stored `posts.score` equals the sum of the
existing votes on that post. -/
def ScoreInvariant (s : DBState) : Prop :=
  ∀ p ∈ s.posts, p.score = scoreSum s.votes p.id

instance (s : DBState) : Decidable (ScoreInvariant s) := by
  unfold ScoreInvariant; infer_instance

/-! ## Concrete example data used in the claim statements and witnesses -/

/-- Example database state: user 2 is a member of club 1, which holds one
post with no votes yet. -/
def exDB : DBState :=
  { memberships := [(2, 1)],
    posts := [⟨1, 1, 1, 0⟩],
    votes := [] }

/-- Example vote transactions: an upvote by user 2, a downvote by user 3,
a rejected duplicate by user 3, and removal of the vote of user 2. -/
def exOps : List VoteOp :=
  [.insert 2 ⟨10, 1, 2, 1⟩, .insert 3 ⟨11, 1, 3, -1⟩,
   .insert 3 ⟨12, 1, 3, 1⟩, .remove 2 1]

/-- Example post A of the specification: score 3, created 2024-01-01
(millisecond timestamp 1704067200000). -/
def exA : Post := ⟨1, 1, 1, ['a'], none, 3, 1704067200000⟩

/-- Example post B of the specification: score 5, created 2024-06-01
(millisecond timestamp 1717200000000). -/
def exB : Post := ⟨2, 1, 1, ['b'], none, 5, 1717200000000⟩

/-- Example post C of the specification: score 1, created 2025-01-01
(millisecond timestamp 1735689600000). -/
def exC : Post := ⟨3, 1, 1, ['c'], none, 1, 1735689600000⟩

/-- Replace the created_at of a post by its negation: an order-reversing
reassignment of the timestamps. -/
def negTs (p : Post) : Post := { p with created_at := -p.created_at }

/-- Two posts sharing one created_at timestamp. -/
def cxP1 : Post := ⟨1, 1, 1, ['a'], none, 0, 0⟩

/-- Second post with the same created_at timestamp as cxP1. -/
def cxP2 : Post := ⟨2, 1, 1, ['b'], none, 0, 0⟩

/-! ## Generic facts about the stable sort -/

variable {α : Type} (k : α → Int)

theorem mem_insertSorted (before : α → α → Bool) (x a : α) (l : List α) :
    a ∈ insertSorted before x l ↔ a = x ∨ a ∈ l := by
  induction l with
  | nil => simp [insertSorted]
  | cons y ys ih =>
      by_cases h : before y x = true
      · simp [insertSorted, h, ih]
        tauto
      · simp [insertSorted, h]

theorem insertSorted_perm (before : α → α → Bool) (x : α) (l : List α) :
    (insertSorted before x l).Perm (x :: l) := by
  induction l with
  | nil => simp [insertSorted]
  | cons y ys ih =>
      by_cases h : before y x = true
      · simp only [insertSorted, h, if_pos]
        exact (ih.cons y).trans (List.Perm.swap x y ys)
      · simp [insertSorted, h]

theorem stableSort_perm (before : α → α → Bool) (l : List α) :
    (stableSort before l).Perm l := by
  induction l with
  | nil => rfl
  | cons x xs ih =>
      exact (insertSorted_perm before x (stableSort before xs)).trans (ih.cons x)

theorem pairwise_insertSorted (x : α) (l : List α)
    (h : l.Pairwise (fun a b => k b ≤ k a)) :
    (insertSorted (fun a b => decide (k b < k a)) x l).Pairwise
      (fun a b => k b ≤ k a) := by
  induction l with
  | nil => simp [insertSorted]
  | cons y ys ih =>
      rcases List.pairwise_cons.mp h with ⟨hy, hys⟩
      by_cases hc : k x < k y
      · simp only [insertSorted, decide_eq_true_eq, hc, if_pos]
        refine List.pairwise_cons.mpr ⟨?_, ih hys⟩
        intro a ha
        rcases (mem_insertSorted _ x a ys).mp ha with rfl | ha
        · omega
        · exact hy a ha
      · simp only [insertSorted, decide_eq_true_eq, hc, if_neg, not_false_iff]
        refine List.pairwise_cons.mpr ⟨?_, h⟩
        intro a ha
        rcases List.mem_cons.mp ha with rfl | ha
        · omega
        · have := hy a ha
          omega

theorem pairwise_stableSort (l : List α) :
    (stableSort (fun a b => decide (k b < k a)) l).Pairwise
      (fun a b => k b ≤ k a) := by
  induction l with
  | nil => simp [stableSort]
  | cons x xs ih => exact pairwise_insertSorted k x _ ih

theorem filter_insertSorted (s : Int) (x : α) (l : List α) :
    (insertSorted (fun a b => decide (k b < k a)) x l).filter
        (fun a => decide (k a = s)) =
      ((x :: l).filter (fun a => decide (k a = s))) := by
  induction l with
  | nil => rfl
  | cons y ys ih =>
      by_cases hc : k x < k y
      · simp only [insertSorted, decide_eq_true_eq, hc, if_pos]
        by_cases hy : k y = s
        · have hx : ¬ (k x = s) := by omega
          simp [List.filter, hy, hx] at ih ⊢
          simpa [List.filter, hx] using ih
        · simp [List.filter, hy] at ih ⊢
          simpa [List.filter] using ih
      · simp [insertSorted, decide_eq_true_eq, hc]

theorem filter_stableSort (s : Int) (l : List α) :
    (stableSort (fun a b => decide (k b < k a)) l).filter
        (fun a => decide (k a = s)) =
      l.filter (fun a => decide (k a = s)) := by
  induction l with
  | nil => rfl
  | cons x xs ih =>
      have h := filter_insertSorted k s x (stableSort (fun a b => decide (k b < k a)) xs)
      rw [stableSort, h]
      by_cases hx : k x = s
      · simp [List.filter, hx, ih]
      · simp [List.filter, hx, ih]

end TuneIn

namespace TuneIn

/-! ## Facts about the score trigger -/

theorem update_post_score_zero (ps : List DBPost) (pid : Nat) :
    update_post_score ps pid 0 = ps := by
  induction ps with
  | nil => rfl
  | cons p ps ih =>
      simp only [update_post_score, List.map_cons] at ih ⊢
      by_cases h : p.id = pid
      · rw [if_pos h, add_zero]
        exact congrArg₂ List.cons rfl ih
      · rw [if_neg h]
        exact congrArg₂ List.cons rfl ih

theorem update_post_score_update (ps : List DBPost) (pid : Nat) (d1 d2 : Int) :
    update_post_score (update_post_score ps pid d1) pid d2 =
      update_post_score ps pid (d1 + d2) := by
  induction ps with
  | nil => rfl
  | cons p ps ih =>
      simp only [update_post_score, List.map_cons] at ih ⊢
      refine congrArg₂ List.cons ?_ ih
      by_cases h : p.id = pid
      · rw [if_pos h]
        show (if p.id = pid then _ else _) = _
        rw [if_pos h, if_pos h, add_assoc]
      · rw [if_neg h, if_neg h, if_neg h]

theorem mem_update_post_score (ps : List DBPost) (pid : Nat) (d : Int) (p' : DBPost) :
    p' ∈ update_post_score ps pid d ↔
      ∃ p ∈ ps, p' = if p.id = pid then { p with score := p.score + d } else p := by
  simp only [update_post_score, List.mem_map]
  constructor
  · rintro ⟨p, hp, rfl⟩; exact ⟨p, hp, rfl⟩
  · rintro ⟨p, hp, rfl⟩; exact ⟨p, hp, rfl⟩

theorem scoreSum_cons (v : Vote) (votes : List Vote) (q : Nat) :
    scoreSum (v :: votes) q =
      (if v.post_id = q then v.vote_value else 0) + scoreSum votes q := by
  by_cases h : v.post_id = q <;> simp [scoreSum, List.filter_cons, h]

theorem voteMatches_true (u p : Nat) (v : Vote) :
    voteMatches u p v = true ↔ v.user_id = u ∧ v.post_id = p := by
  simp [voteMatches]

theorem scoreSum_filter_ne (u p0 q : Nat) (hq : q ≠ p0) (votes : List Vote) :
    scoreSum (votes.filter (fun v => ! voteMatches u p0 v)) q = scoreSum votes q := by
  induction votes with
  | nil => rfl
  | cons v vs ih =>
      by_cases hm : voteMatches u p0 v = true
      · rw [List.filter_cons_of_neg (by simp [hm]), ih, scoreSum_cons]
        have : ¬ (v.post_id = q) := by
          rw [((voteMatches_true u p0 v).mp hm).2]
          exact fun hh => hq hh.symm
        rw [if_neg this, zero_add]
      · rw [List.filter_cons_of_pos (by simp [hm]), scoreSum_cons, scoreSum_cons, ih]

theorem scoreSum_filter_eq (u p0 : Nat) (votes : List Vote) :
    scoreSum votes p0 =
      scoreSum (votes.filter (fun v => ! voteMatches u p0 v)) p0 +
        ((votes.filter (voteMatches u p0)).map Vote.vote_value).sum := by
  induction votes with
  | nil => simp [scoreSum]
  | cons v vs ih =>
      rw [scoreSum_cons]
      by_cases hm : voteMatches u p0 v = true
      · rw [List.filter_cons_of_neg (by simp [hm]), List.filter_cons_of_pos hm,
          List.map_cons, List.sum_cons,
          if_pos ((voteMatches_true u p0 v).mp hm).2]
        omega
      · rw [List.filter_cons_of_pos (by simp [hm]), List.filter_cons_of_neg hm,
          scoreSum_cons]
        omega

end TuneIn

namespace TuneIn

theorem foldl_update_collapse (p0 : Nat) (vs : List Vote)
    (hvs : ∀ v ∈ vs, v.post_id = p0) (ps : List DBPost) :
    vs.foldl (fun acc v => update_post_score acc v.post_id (-v.vote_value)) ps =
      update_post_score ps p0 (-((vs.map Vote.vote_value).sum)) := by
  induction vs generalizing ps with
  | nil => simp [update_post_score_zero]
  | cons v vs ih =>
      rw [List.foldl_cons, ih (fun w hw => hvs w (List.mem_cons_of_mem v hw)),
        hvs v (List.mem_cons_self v vs), update_post_score_update,
        List.map_cons, List.sum_cons]
      congr 1
      omega

theorem invariant_insert_state (s : DBState) (v : Vote) (h : ScoreInvariant s) :
    ScoreInvariant
      { s with votes := v :: s.votes,
               posts := update_post_score s.posts v.post_id v.vote_value } := by
  intro p' hp'
  rw [mem_update_post_score] at hp'
  obtain ⟨p, hp, rfl⟩ := hp'
  by_cases hid : p.id = v.post_id
  · rw [if_pos hid]
    show p.score + v.vote_value = scoreSum (v :: s.votes) p.id
    rw [scoreSum_cons, if_pos hid.symm, h p hp]
    omega
  · rw [if_neg hid]
    show p.score = scoreSum (v :: s.votes) p.id
    rw [scoreSum_cons, if_neg (fun hh => hid hh.symm), zero_add]
    exact h p hp

theorem invariant_deleteVote (u p0 : Nat) (s : DBState) (h : ScoreInvariant s) :
    ScoreInvariant (deleteVote u p0 s) := by
  intro p' hp'
  have hcollapse :
      (s.votes.filter (voteMatches u p0)).foldl
          (fun acc v => update_post_score acc v.post_id (-v.vote_value)) s.posts =
        update_post_score s.posts p0
          (-(((s.votes.filter (voteMatches u p0)).map Vote.vote_value).sum)) := by
    refine foldl_update_collapse p0 _ ?_ s.posts
    intro v hv
    exact ((voteMatches_true u p0 v).mp (List.of_mem_filter hv)).2
  simp only [deleteVote] at hp' ⊢
  rw [hcollapse, mem_update_post_score] at hp'
  obtain ⟨p, hp, rfl⟩ := hp'
  by_cases hid : p.id = p0
  · rw [if_pos hid]
    show p.score + _ = scoreSum (s.votes.filter (fun v => ! voteMatches u p0 v)) _
    have hsplit := scoreSum_filter_eq u p0 s.votes
    rw [hid, h p hp, hid]
    omega
  · rw [if_neg hid]
    show p.score = scoreSum (s.votes.filter (fun v => ! voteMatches u p0 v)) p.id
    rw [scoreSum_filter_ne u p0 p.id hid s.votes]
    exact h p hp

theorem invariant_applyOp (s : DBState) (op : VoteOp) (h : ScoreInvariant s) :
    ScoreInvariant (applyOp s op) := by
  cases op with
  | insert auth v =>
      simp only [applyOp, insertVote]
      by_cases h1 : v.vote_value = 1 ∨ v.vote_value = -1
      · rw [if_neg (not_not_intro h1)]
        by_cases h2 : auth = v.user_id
        · rw [if_neg (not_not_intro h2)]
          by_cases h3 : has_voted_on_post auth v.post_id s = true
          · rw [if_pos h3]
            exact h
          · rw [if_neg h3]
            exact invariant_insert_state s v h
        · rw [if_pos h2]
          exact h
      · rw [if_pos h1]
        exact h
  | remove auth p => exact invariant_deleteVote auth p s h

theorem score_invariant_ops (s0 : DBState) (ops : List VoteOp)
    (h : ScoreInvariant s0) : ScoreInvariant (ops.foldl applyOp s0) := by
  induction ops generalizing s0 with
  | nil => exact h
  | cons op ops ih => exact ih (applyOp s0 op) (invariant_applyOp s0 op h)

end TuneIn

namespace TuneIn

theorem has_voted_deleteVote (u p : Nat) (s : DBState) :
    has_voted_on_post u p (deleteVote u p s) = false := by
  simp only [has_voted_on_post, deleteVote, List.any_eq_false]
  intro v hv
  have h2 := (List.mem_filter.mp hv).2
  simp only [Bool.not_eq_eq_eq_not, Bool.not_true] at h2
  simp [h2]

/-- C1: after any sequence of committed vote insert and delete
transactions starting from a state satisfying the score invariant, every
stored post score equals the sum of the vote values of the existing votes
on that post: the trigger preserves the invariant on every insert and
every delete. -/
theorem C1_score_invariant (s0 : DBState) (ops : List VoteOp)
    (h : ScoreInvariant s0) :
    ∀ p ∈ (ops.foldl applyOp s0).posts,
      p.score = scoreSum (ops.foldl applyOp s0).votes p.id :=
  score_invariant_ops s0 ops h

theorem C1_score_invariant_witness :
    ScoreInvariant exDB ∧
      ∀ p ∈ (exOps.foldl applyOp exDB).posts,
        p.score = scoreSum (exOps.foldl applyOp exDB).votes p.id :=
  ⟨by decide, C1_score_invariant exDB exOps (by decide)⟩

/-- C2: a plain insert of a second vote by the same user on the same post
is rejected with a ConflictError; once the existing vote is removed, an
insert of a new vote with either value +1 or -1 succeeds. -/
theorem C2_duplicate_vote (s : DBState) (u p : Nat) (v w : Vote)
    (hu : v.user_id = u) (hp : v.post_id = p)
    (hval : v.vote_value = 1 ∨ v.vote_value = -1)
    (hdup : has_voted_on_post u p s = true)
    (hu2 : w.user_id = u) (hp2 : w.post_id = p)
    (hval2 : w.vote_value = 1 ∨ w.vote_value = -1) :
    insertVote u v s = .error .ConflictError ∧
      ∃ s', insertVote u w (deleteVote u p s) = .ok s' := by
  constructor
  · rw [insertVote, if_neg (not_not_intro hval), if_neg (not_not_intro hu.symm),
      hp, if_pos (by rw [hdup])]
  · rw [insertVote, if_neg (not_not_intro hval2), if_neg (not_not_intro hu2.symm),
      hp2, if_neg (by rw [has_voted_deleteVote]; simp)]
    exact ⟨_, rfl⟩

theorem C2_duplicate_vote_witness :
    insertVote 2 ⟨11, 1, 2, 1⟩
        { memberships := [], posts := [⟨1, 1, 1, 1⟩], votes := [⟨10, 1, 2, 1⟩] } =
      .error .ConflictError ∧
      ∃ s', insertVote 2 ⟨11, 1, 2, -1⟩
          (deleteVote 2 1
            { memberships := [], posts := [⟨1, 1, 1, 1⟩], votes := [⟨10, 1, 2, 1⟩] }) =
        .ok s' :=
  C2_duplicate_vote _ 2 1 ⟨11, 1, 2, 1⟩ ⟨11, 1, 2, -1⟩ rfl rfl (Or.inl rfl)
    (by decide) rfl rfl (Or.inr rfl)

/-- C3: an authenticated user who is not a member of the club of the post can
still cast a vote (membership is never checked by the vote policy), while
creating a post in a club the user is not a member of fails with an
AuthorizationError. -/
theorem C3_membership_asymmetry (s : DBState) (u : Nat) (v : Vote)
    (post np : DBPost)
    (hu : v.user_id = u) (hval : v.vote_value = 1 ∨ v.vote_value = -1)
    (hnew : has_voted_on_post u v.post_id s = false)
    (hpost : post ∈ s.posts) (hpid : post.id = v.post_id)
    (hnm : is_club_member u post.club_id s = false)
    (hnp : np.user_id = u)
    (hnm2 : is_club_member u np.club_id s = false) :
    (∃ s', insertVote u v s = .ok s') ∧
      createPost u np s = .error .AuthorizationError := by
  constructor
  · rw [insertVote, if_neg (not_not_intro hval), if_neg (not_not_intro hu.symm),
      if_neg (by rw [hnew]; simp)]
    exact ⟨_, rfl⟩
  · rw [createPost, if_neg]
    rintro ⟨-, hm⟩
    rw [hnm2] at hm
    exact absurd hm (by simp)

theorem C3_membership_asymmetry_witness :
    (∃ s', insertVote 5 ⟨10, 1, 5, 1⟩
        { memberships := [(2, 1)], posts := [⟨1, 1, 2, 0⟩], votes := [] } = .ok s') ∧
      createPost 5 ⟨9, 1, 5, 0⟩
          { memberships := [(2, 1)], posts := [⟨1, 1, 2, 0⟩], votes := [] } =
        .error .AuthorizationError :=
  C3_membership_asymmetry _ 5 ⟨10, 1, 5, 1⟩ ⟨1, 1, 2, 0⟩ ⟨9, 1, 5, 0⟩
    rfl (Or.inl rfl) (by decide) (by decide) rfl (by decide) rfl (by decide)

/-- C7: the score trigger applies deltas additively, so two deltas on the
same post commute, and their combined effect is the sum of the deltas —
assignment semantics would not satisfy this. -/
theorem C7_delta_commutes (posts : List DBPost) (pid : Nat) (d1 d2 : Int) :
    update_post_score (update_post_score posts pid d1) pid d2 =
      update_post_score (update_post_score posts pid d2) pid d1 ∧
    update_post_score (update_post_score posts pid d1) pid d2 =
      update_post_score posts pid (d1 + d2) := by
  constructor
  · rw [update_post_score_update, update_post_score_update, add_comm]
  · exact update_post_score_update posts pid d1 d2

end TuneIn

namespace TuneIn

/-! ## Equations for the feed ranker -/

theorem rank_new_nil (posts : List Post) (now : Int) :
    rank posts .new [] now = stableSort beforeByTime posts := rfl

theorem rank_top_nil (posts : List Post) (m : SortMode) (now : Int)
    (hm : m ≠ SortMode.new) :
    rank posts m [] now =
      match windowMs m with
      | none => stableSort beforeByScore posts
      | some w =>
          stableSort beforeByScore
            (posts.filter (fun p => decide (now - p.created_at < w))) := by
  cases m with
  | new => exact absurd rfl hm
  | top3m => rfl
  | top6m => rfl
  | top1y => rfl
  | topAll => rfl

theorem beforeByScore_eq :
    beforeByScore = fun a b => decide (Post.score b < Post.score a) := rfl

theorem beforeByTime_eq :
    beforeByTime = fun a b => decide (Post.created_at b < Post.created_at a) := rfl

/-- C4: with an empty query, every Top mode first keeps exactly the posts
whose age is strictly below the window (all-time keeps every post), then
stably sorts the kept posts by score descending: the output is a
permutation of the kept posts, is sorted by score descending, and posts
of equal score appear in their kept-input order. -/
theorem C4_top_window (posts : List Post) (m : SortMode) (now : Int)
    (hm : m ≠ SortMode.new) (kept : List Post)
    (hkept : kept = match windowMs m with
      | none => posts
      | some w => posts.filter (fun p => decide (now - p.created_at < w))) :
    (rank posts m [] now).Perm kept ∧
      (rank posts m [] now).Pairwise (fun a b => b.score ≤ a.score) ∧
      ∀ sc : Int,
        (rank posts m [] now).filter (fun p => decide (p.score = sc)) =
          kept.filter (fun p => decide (p.score = sc)) := by
  subst hkept
  rw [rank_top_nil posts m now hm]
  cases hw : windowMs m with
  | none =>
      exact ⟨stableSort_perm beforeByScore posts,
        pairwise_stableSort Post.score posts,
        fun sc => filter_stableSort Post.score sc posts⟩
  | some w =>
      exact ⟨stableSort_perm beforeByScore _,
        pairwise_stableSort Post.score _,
        fun sc => filter_stableSort Post.score sc _⟩

theorem C4_top_window_witness :
    (SortMode.topAll ≠ SortMode.new ∧
      ([exA, exB, exC] : List Post) = (match windowMs .topAll with
        | none => ([exA, exB, exC] : List Post)
        | some w =>
            List.filter (fun p => decide ((0 : Int) - p.created_at < w))
              [exA, exB, exC])) ∧
    ((rank [exA, exB, exC] .topAll [] 0).Perm [exA, exB, exC] ∧
      (rank [exA, exB, exC] .topAll [] 0).Pairwise (fun a b => b.score ≤ a.score) ∧
      ∀ sc : Int,
        (rank [exA, exB, exC] .topAll [] 0).filter (fun p => decide (p.score = sc)) =
          List.filter (fun p => decide (p.score = sc)) [exA, exB, exC]) :=
  ⟨⟨by decide, rfl⟩,
    C4_top_window [exA, exB, exC] .topAll 0 (by decide) [exA, exB, exC] rfl⟩

end TuneIn

namespace TuneIn

/-- C5: with an empty query, New mode returns the same multiset of posts
stably sorted by created_at descending (permutation, sortedness, equal
timestamps kept in input order); on the specification example,
rank([A,B,C], New) = [C,B,A] and rank([A,B,C], Top(all-time)) = [B,A,C]. -/
theorem C5_new_mode (posts : List Post) (now now2 : Int) :
    ((rank posts .new [] now).Perm posts ∧
      (rank posts .new [] now).Pairwise (fun a b => b.created_at ≤ a.created_at) ∧
      ∀ t : Int,
        (rank posts .new [] now).filter (fun p => decide (p.created_at = t)) =
          posts.filter (fun p => decide (p.created_at = t))) ∧
      rank [exA, exB, exC] .new [] now2 = [exC, exB, exA] ∧
      rank [exA, exB, exC] .topAll [] now2 = [exB, exA, exC] := by
  refine ⟨⟨?_, ?_, ?_⟩, ?_, ?_⟩
  · exact stableSort_perm beforeByTime posts
  · exact pairwise_stableSort Post.created_at posts
  · exact fun t => filter_stableSort Post.created_at t posts
  · rfl
  · rfl

end TuneIn

namespace TuneIn

theorem rank_query (posts : List Post) (m : SortMode) (q : List Char)
    (now : Int) (hq : q ≠ []) :
    rank posts m q now =
      rank (posts.filter (matchesQuery (lowerStr q))) m [] now := by
  have hne : q.isEmpty = false := by
    cases q with
    | nil => exact absurd rfl hq
    | cons c cs => rfl
  simp only [rank, hne, List.isEmpty_nil, if_false, if_true, Bool.false_eq_true]

theorem rank_nil_input (m : SortMode) (s : List Char) (now : Int) :
    rank [] m s now = [] := by
  cases m <;> simp [rank, stableSort, List.filter_nil] <;> rfl

theorem mem_stableSort {α : Type} (before : α → α → Bool) (l : List α) (a : α) :
    a ∈ stableSort before l ↔ a ∈ l :=
  (stableSort_perm before l).mem_iff

theorem mem_rank_nil_subset (posts : List Post) (m : SortMode) (now : Int)
    (p : Post) (hp : p ∈ rank posts m [] now) : p ∈ posts := by
  cases m with
  | new => exact (mem_stableSort beforeByTime posts p).mp hp
  | top3m =>
      exact List.mem_of_mem_filter ((mem_stableSort beforeByScore _ p).mp hp)
  | top6m =>
      exact List.mem_of_mem_filter ((mem_stableSort beforeByScore _ p).mp hp)
  | top1y =>
      exact List.mem_of_mem_filter ((mem_stableSort beforeByScore _ p).mp hp)
  | topAll => exact (mem_stableSort beforeByScore posts p).mp hp

theorem mem_rank_subset (posts : List Post) (m : SortMode) (s : List Char)
    (now : Int) (p : Post) (hp : p ∈ rank posts m s now) : p ∈ posts := by
  by_cases hs : s = []
  · subst hs
    exact mem_rank_nil_subset posts m now p hp
  · rw [rank_query posts m s now hs] at hp
    exact List.mem_of_mem_filter (mem_rank_nil_subset _ m now p hp)

end TuneIn

namespace TuneIn

/-- C6: a non-empty query keeps exactly the posts whose title or content
contains the query as a case-insensitive substring, the filter running
before the ranking sort: ranking with the query equals ranking the
pre-filtered posts, every returned post matches, and a query matching no
post gives the empty result; in the unwindowed modes the output holds
exactly the matching posts. -/
theorem C6_search_filter (posts : List Post) (m : SortMode) (q : List Char)
    (now : Int) (hq : q ≠ []) :
    rank posts m q now =
        rank (posts.filter (matchesQuery (lowerStr q))) m [] now ∧
      (∀ p ∈ rank posts m q now, matchesQuery (lowerStr q) p = true) ∧
      ((∀ p ∈ posts, matchesQuery (lowerStr q) p = false) →
        rank posts m q now = []) ∧
      ((m = SortMode.new ∨ m = SortMode.topAll) →
        ∀ p : Post,
          p ∈ rank posts m q now ↔
            p ∈ posts ∧ matchesQuery (lowerStr q) p = true) := by
  refine ⟨rank_query posts m q now hq, ?_, ?_, ?_⟩
  · intro p hp
    rw [rank_query posts m q now hq] at hp
    exact List.of_mem_filter (mem_rank_nil_subset _ m now p hp)
  · intro hnone
    rw [rank_query posts m q now hq]
    have hempty : posts.filter (matchesQuery (lowerStr q)) = [] := by
      rw [List.filter_eq_nil_iff]
      intro a ha
      rw [hnone a ha]
      simp
    rw [hempty, rank_nil_input]
  · rintro (rfl | rfl) p
    · rw [rank_query posts SortMode.new q now hq, rank_new_nil,
        mem_stableSort, List.mem_filter]
    · rw [rank_query posts SortMode.topAll q now hq]
      constructor
      · intro hp
        exact ⟨mem_rank_subset posts SortMode.topAll q now p
            (by rw [rank_query posts SortMode.topAll q now hq]; exact hp),
          List.of_mem_filter (mem_rank_nil_subset _ SortMode.topAll now p hp)⟩
      · intro ⟨hp, hm⟩
        exact (mem_stableSort beforeByScore _ p).mpr (List.mem_filter.mpr ⟨hp, hm⟩)

theorem C6_search_filter_witness :
    (['a'] : List Char) ≠ [] ∧
      (rank [exA, exB, exC] .new ['a'] 0 =
          rank ([exA, exB, exC].filter (matchesQuery (lowerStr ['a']))) .new [] 0 ∧
        (∀ p ∈ rank [exA, exB, exC] .new ['a'] 0,
          matchesQuery (lowerStr ['a']) p = true) ∧
        ((∀ p ∈ [exA, exB, exC], matchesQuery (lowerStr ['a']) p = false) →
          rank [exA, exB, exC] .new ['a'] 0 = []) ∧
        ((SortMode.new = SortMode.new ∨ SortMode.new = SortMode.topAll) →
          ∀ p : Post,
            p ∈ rank [exA, exB, exC] .new ['a'] 0 ↔
              p ∈ [exA, exB, exC] ∧ matchesQuery (lowerStr ['a']) p = true)) :=
  ⟨by decide, C6_search_filter [exA, exB, exC] .new ['a'] 0 (by decide)⟩

end TuneIn

namespace TuneIn

/-- C10: the Top windows are fixed durations in milliseconds — 90, 180
and 365 days — compared with a strict inequality, so a post whose age
equals the window exactly is excluded from the ranked output. -/
theorem C10_window_boundaries (posts : List Post) (m : SortMode)
    (w now : Int) (p : Post)
    (hw : windowMs m = some w) (hage : now - p.created_at = w) :
    (windowMs .top3m = some (90 * 24 * 60 * 60 * 1000) ∧
      windowMs .top6m = some (180 * 24 * 60 * 60 * 1000) ∧
      windowMs .top1y = some (365 * 24 * 60 * 60 * 1000) ∧
      windowMs .topAll = none) ∧
      p ∉ rank posts m [] now := by
  refine ⟨⟨rfl, rfl, rfl, rfl⟩, ?_⟩
  intro hp
  have hm : m ≠ SortMode.new := by
    intro h
    rw [h] at hw
    exact Option.noConfusion hw
  rw [rank_top_nil posts m now hm, hw] at hp
  have hmem := (mem_stableSort beforeByScore _ p).mp hp
  have := List.of_mem_filter hmem
  rw [decide_eq_true_eq] at this
  omega

theorem C10_window_boundaries_witness :
    windowMs .top3m = some 7776000000 ∧
      (0 : Int) - (⟨1, 1, 1, ['a'], none, 0, -7776000000⟩ : Post).created_at =
        7776000000 ∧
      (⟨1, 1, 1, ['a'], none, 0, -7776000000⟩ : Post) ∉
        rank [⟨1, 1, 1, ['a'], none, 0, -7776000000⟩] .top3m [] 0 :=
  ⟨by decide, by decide,
    (C10_window_boundaries [⟨1, 1, 1, ['a'], none, 0, -7776000000⟩] .top3m
      7776000000 0 ⟨1, 1, 1, ['a'], none, 0, -7776000000⟩
      (by decide) (by decide)).2⟩

/-! ## Facts about the client vote handler -/

theorem bumpScore_bumpScore (posts : List Post) (pid : Nat) (d1 d2 : Int) :
    bumpScore (bumpScore posts pid d1) pid d2 =
      posts.map (fun p =>
        if p.id = pid then { p with score := p.score + (d1 + d2) } else p) := by
  induction posts with
  | nil => rfl
  | cons p ps ih =>
      simp only [bumpScore, List.map_cons] at ih ⊢
      refine congrArg₂ List.cons ?_ ih
      by_cases h : p.id = pid
      · rw [if_pos h]
        show (if p.id = pid then _ else _) = _
        rw [if_pos h, if_pos h, add_assoc]
      · rw [if_neg h, if_neg h, if_neg h]

end TuneIn

namespace TuneIn

theorem handleVote_same (st : ClientState) (pid : Nat) (v : Int)
    (hfind : st.votes.find? (fun x => x.post_id = pid) = some ⟨pid, v⟩) :
    handleVote st pid v =
      { votes := st.votes.filter (fun x => ¬ (x.post_id = pid)),
        posts := bumpScore st.posts pid (-v) } := by
  simp only [handleVote, hfind, ne_eq, not_true_eq_false, if_false,
    not_false_eq_true, if_true, ite_not]

theorem handleVote_opp (st : ClientState) (pid : Nat) (v : Int)
    (hv : v ≠ 0)
    (hfind : st.votes.find? (fun x => x.post_id = pid) = some ⟨pid, v⟩) :
    handleVote st pid (-v) =
      { votes := st.votes.filter (fun x => ¬ (x.post_id = pid)) ++ [⟨pid, -v⟩],
        posts := bumpScore (bumpScore st.posts pid (-v)) pid (-v) } := by
  have hne : v ≠ -v := by omega
  simp only [handleVote, hfind, ne_eq, hne, not_false_eq_true, if_true]

end TuneIn

namespace TuneIn

/-- C9: when the acting user already has a vote of value v on a post,
invoking the client vote handler with the same value removes the vote and
lowers the displayed score by v, leaving no vote on the post (a toggle);
invoking it with the opposite value -v appends a fresh vote after the
delete, for a net displayed score change of -2v. -/
theorem C9_vote_toggle (st : ClientState) (pid : Nat) (v : Int)
    (hfind : st.votes.find? (fun x => x.post_id = pid) = some ⟨pid, v⟩)
    (hv : v ≠ 0) :
    (handleVote st pid v).votes =
        st.votes.filter (fun x => ¬ (x.post_id = pid)) ∧
      (handleVote st pid v).votes.find? (fun x => x.post_id = pid) = none ∧
      (handleVote st pid v).posts =
        st.posts.map (fun p =>
          if p.id = pid then { p with score := p.score - v } else p) ∧
      (handleVote st pid (-v)).votes =
        st.votes.filter (fun x => ¬ (x.post_id = pid)) ++ [⟨pid, -v⟩] ∧
      (handleVote st pid (-v)).posts =
        st.posts.map (fun p =>
          if p.id = pid then { p with score := p.score - 2 * v } else p) := by
  rw [handleVote_same st pid v hfind, handleVote_opp st pid v hv hfind]
  refine ⟨rfl, ?_, ?_, rfl, ?_⟩
  · rw [List.find?_eq_none]
    intro x hx
    have := List.of_mem_filter hx
    simp only [decide_not, Bool.not_eq_eq_eq_not, Bool.not_true,
      decide_eq_false_iff_not] at this
    simp [this]
  · show bumpScore st.posts pid (-v) = _
    rw [bumpScore]
    refine List.map_congr_left ?_
    intro p _
    by_cases h : p.id = pid
    · rw [if_pos h, if_pos h, sub_eq_add_neg]
    · rw [if_neg h, if_neg h]
  · show bumpScore (bumpScore st.posts pid (-v)) pid (-v) = _
    rw [bumpScore_bumpScore]
    refine List.map_congr_left ?_
    intro p _
    by_cases h : p.id = pid
    · rw [if_pos h, if_pos h]
      have : p.score + (-v + -v) = p.score - 2 * v := by ring
      rw [this]
    · rw [if_neg h, if_neg h]

theorem C9_vote_toggle_witness :
    ((⟨[⟨7, 1⟩], [⟨7, 1, 1, ['t'], none, 4, 0⟩]⟩ : ClientState).votes.find?
        (fun x => x.post_id = 7) = some ⟨7, 1⟩ ∧ (1 : Int) ≠ 0) ∧
      ((handleVote ⟨[⟨7, 1⟩], [⟨7, 1, 1, ['t'], none, 4, 0⟩]⟩ 7 1).votes =
          List.filter (fun x => ¬ (x.post_id = 7)) [⟨7, 1⟩] ∧
        (handleVote ⟨[⟨7, 1⟩], [⟨7, 1, 1, ['t'], none, 4, 0⟩]⟩ 7 1).votes.find?
          (fun x => x.post_id = 7) = none ∧
        (handleVote ⟨[⟨7, 1⟩], [⟨7, 1, 1, ['t'], none, 4, 0⟩]⟩ 7 1).posts =
          List.map (fun p =>
            if p.id = 7 then { p with score := p.score - 1 } else p)
            [⟨7, 1, 1, ['t'], none, 4, 0⟩] ∧
        (handleVote ⟨[⟨7, 1⟩], [⟨7, 1, 1, ['t'], none, 4, 0⟩]⟩ 7 (-1)).votes =
          List.filter (fun x => ¬ (x.post_id = 7)) [⟨7, 1⟩] ++ [⟨7, -1⟩] ∧
        (handleVote ⟨[⟨7, 1⟩], [⟨7, 1, 1, ['t'], none, 4, 0⟩]⟩ 7 (-1)).posts =
          List.map (fun p =>
            if p.id = 7 then { p with score := p.score - 2 * 1 } else p)
            [⟨7, 1, 1, ['t'], none, 4, 0⟩]) :=
  ⟨⟨by decide, by decide⟩,
    C9_vote_toggle ⟨[⟨7, 1⟩], [⟨7, 1, 1, ['t'], none, 4, 0⟩]⟩ 7 1
      (by decide) (by decide)⟩

end TuneIn

namespace TuneIn

/-- C8 counterexample: with two posts of equal created_at, negating the
timestamps reverses the timestamp order (trivially, as all comparisons
are ties), yet the output of rank New is not reversed: the stable sort
returns both lists in input order. -/
theorem C8_counterexample :
    (∀ p ∈ [cxP1, cxP2], ∀ q ∈ [cxP1, cxP2],
        ((negTs p).created_at < (negTs q).created_at ↔
          q.created_at < p.created_at)) ∧
      rank ([cxP1, cxP2].map negTs) .new [] 0 ≠
        ((rank [cxP1, cxP2] .new [] 0).map negTs).reverse := by decide

theorem pairwise_ne_stableSort_time (posts : List Post)
    (hd : posts.Pairwise (fun a b => a.created_at ≠ b.created_at)) :
    (stableSort beforeByTime posts).Pairwise
      (fun a b => b.created_at < a.created_at) := by
  have hsorted : (stableSort beforeByTime posts).Pairwise
      (fun a b => b.created_at ≤ a.created_at) :=
    pairwise_stableSort Post.created_at posts
  have hne : (stableSort beforeByTime posts).Pairwise
      (fun a b => a.created_at ≠ b.created_at) :=
    (List.Perm.pairwise_iff (fun h => Ne.symm h)
      (stableSort_perm beforeByTime posts)).mpr hd
  exact (hsorted.and hne).imp (fun h => by omega)

/-- C8 amended: for posts whose created_at timestamps are pairwise
distinct, negating every created_at (an order-reversing reassignment of
the timestamps) makes rank New return exactly the reverse of the original
output (with the same reassignment applied); with tied timestamps the
stable sort keeps input order on both sides and the property fails. -/
theorem C8_reverse_timestamps (posts : List Post) (now : Int)
    (hd : posts.Pairwise (fun a b => a.created_at ≠ b.created_at)) :
    rank (posts.map negTs) .new [] now =
      ((rank posts .new [] now).map negTs).reverse := by
  rw [rank_new_nil, rank_new_nil]
  have hdneg : (posts.map negTs).Pairwise
      (fun a b => a.created_at ≠ b.created_at) := by
    rw [List.pairwise_map]
    refine hd.imp (fun h => ?_)
    simp only [negTs]
    omega
  have hL := pairwise_ne_stableSort_time (posts.map negTs) hdneg
  have hR0 := pairwise_ne_stableSort_time posts hd
  have hR : (((stableSort beforeByTime posts).map negTs).reverse).Pairwise
      (fun a b => b.created_at < a.created_at) := by
    rw [List.pairwise_reverse, List.pairwise_map]
    refine hR0.imp (fun h => ?_)
    simp only [negTs]
    omega
  have hperm : (stableSort beforeByTime (posts.map negTs)).Perm
      (((stableSort beforeByTime posts).map negTs).reverse) := by
    refine (stableSort_perm beforeByTime (posts.map negTs)).trans ?_
    exact ((List.reverse_perm _).trans
      (List.Perm.map negTs (stableSort_perm beforeByTime posts))).symm
  haveI : IsAntisymm Post (fun a b => b.created_at < a.created_at) :=
    ⟨fun a b h1 h2 => absurd h2 (not_lt.mpr (le_of_lt h1))⟩
  exact List.eq_of_perm_of_sorted hperm hL hR

theorem C8_reverse_timestamps_witness :
    ([exA, exB, exC] : List Post).Pairwise
        (fun a b => a.created_at ≠ b.created_at) ∧
      rank ([exA, exB, exC].map negTs) .new [] 0 =
        ((rank [exA, exB, exC] .new [] 0).map negTs).reverse :=
  ⟨by decide, C8_reverse_timestamps [exA, exB, exC] 0 (by decide)⟩

end TuneIn
